import Mathlib

/-!
Verification of the SmartSwing golf-analysis core against its specification.

The definitions below are a shallow embedding of the Python source:
  swing_detector.py      (motion energy, swing-phase state machine, key positions)
  biomechanical_analyzer.py (rotation angle, weight transfer, error predicates)
  swing_scorer.py / config.py (weighted overall score)

Landmark coordinates are embedded as rationals (floats are rationals);
quantities produced through square roots or arc-cosines live in the reals.
-/

open Real

/-! ## Data model: landmark frames

A landmark frame is a fixed array of 33 labelled 3D points, as produced by
the pose estimator (x, y, z per joint).  A missing detection is modelled by
Option.  The key joint indices come from config.KEYPOINTS. -/

abbrev Vec3 : Type := ℚ × ℚ × ℚ

abbrev Frame : Type := Fin 33 → Vec3

/-! ## Swing segmenter, from swing_detector.py detect_swing_phases

The detector scans the motion-energy signal with a two-state machine
(IDLE / IN_SWING).  Segment bounds are Python ints, hence ℤ here. -/

structure SwingParams where
  motionThreshold : ℚ
  stillnessFrames : ℕ
  minSwingDuration : ℤ
  maxSwingDuration : ℤ

/-- The configured defaults of config.SWING_DETECTION. -/
def SWING_DETECTION : SwingParams := ⟨5, 15, 30, 120⟩

abbrev SwingSeg : Type := ℤ × ℤ × String

/-- Loop state of detect_swing_phases: accumulated swings, the in_swing
flag, swing_start and the stillness counter. -/
structure SwState where
  swings : List SwingSeg
  inSwing : Bool
  swingStart : ℕ
  stillness : ℕ
  deriving DecidableEq

/-- One iteration of the loop body of detect_swing_phases for frame index
i with energy value e. -/
def swingStep (p : SwingParams) (s : SwState) (i : ℕ) (e : ℚ) : SwState :=
  if s.inSwing = false then
    if p.motionThreshold < e then
      { s with inSwing := true, swingStart := i, stillness := 0 }
    else s
  else
    if e < p.motionThreshold then
      if p.stillnessFrames ≤ s.stillness + 1 then
        let swingEnd : ℤ := (i : ℤ) - p.stillnessFrames
        let dur : ℤ := swingEnd - (s.swingStart : ℤ)
        { swings :=
            if p.minSwingDuration ≤ dur ∧ dur ≤ p.maxSwingDuration then
              s.swings ++ [((s.swingStart : ℤ), swingEnd, "full_swing")]
            else s.swings,
          inSwing := false, swingStart := s.swingStart, stillness := 0 }
      else { s with stillness := s.stillness + 1 }
    else { s with stillness := 0 }

/-- The enumerate loop of detect_swing_phases, threading the frame index. -/
def scanFrom (p : SwingParams) : SwState → ℕ → List ℚ → SwState
  | s, _, [] => s
  | s, i, e :: es => scanFrom p (swingStep p s i e) (i + 1) es

def initSwState : SwState := ⟨[], false, 0, 0⟩

/-- Final loop state of detect_swing_phases on an energy sequence. -/
def swingScan (p : SwingParams) (es : List ℚ) : SwState :=
  scanFrom p initSwState 0 es

/-- swing_detector.SwingDetector.detect_swing_phases. -/
def detect_swing_phases (p : SwingParams) (es : List ℚ) : List SwingSeg :=
  (swingScan p es).swings

/-! ### Invariant of the segmenter state machine -/

/-- Basic per-segment facts: nonnegative start, start before end, and the
duration window enforced by the validation branch. -/
def segBasic (p : SwingParams) (q : SwingSeg) : Prop :=
  0 ≤ q.1 ∧ q.1 ≤ q.2.1 ∧
    p.minSwingDuration ≤ q.2.1 - q.1 ∧ q.2.1 - q.1 ≤ p.maxSwingDuration ∧
    q.2.2 = "full_swing"

/-- Ordering between two emitted segments: the later one starts at least
stillness_frames + 1 frames after the earlier one ends. -/
def segChain (sf : ℕ) (a b : SwingSeg) : Prop :=
  a.2.1 + (sf : ℤ) + 1 ≤ b.1

/-- Inductive invariant of the scan after processing pos frames. -/
def SwInv (p : SwingParams) (pos : ℕ) (s : SwState) : Prop :=
  (∀ q ∈ s.swings, segBasic p q) ∧
  List.Pairwise (segChain p.stillnessFrames) s.swings ∧
  (s.inSwing = true → s.swingStart + s.stillness < pos ∧
      ∀ q ∈ s.swings, q.2.1 + (p.stillnessFrames : ℤ) + 1 ≤ (s.swingStart : ℤ)) ∧
  (s.inSwing = false → ∀ q ∈ s.swings, q.2.1 + (p.stillnessFrames : ℤ) + 1 ≤ (pos : ℤ))

lemma swInv_init (p : SwingParams) : SwInv p 0 initSwState := by
  refine ⟨?_, ?_, ?_, ?_⟩ <;> simp [initSwState, SwInv]

lemma swInv_step (p : SwingParams) {pos : ℕ} {s : SwState} (h : SwInv p pos s)
    (e : ℚ) : SwInv p (pos + 1) (swingStep p s pos e) := by
  obtain ⟨hbasic, hpair, hin, hout⟩ := h
  unfold swingStep
  by_cases hs : s.inSwing = false
  · rw [if_pos hs]
    by_cases hstart : p.motionThreshold < e
    · rw [if_pos hstart]
      refine ⟨hbasic, hpair, ?_, ?_⟩
      · intro _
        dsimp only
        exact ⟨by omega, fun q hq => hout hs q hq⟩
      · intro hcontra
        simp at hcontra
    · rw [if_neg hstart]
      refine ⟨hbasic, hpair, ?_, ?_⟩
      · intro h1
        obtain ⟨h2, h3⟩ := hin h1
        exact ⟨by omega, h3⟩
      · intro h0 q hq
        have := hout h0 q hq
        omega
  · have hs' : s.inSwing = true := by
      revert hs
      cases s.inSwing <;> simp
    rw [if_neg hs]
    obtain ⟨hlt, hsep⟩ := hin hs'
    by_cases hstill : e < p.motionThreshold
    · rw [if_pos hstill]
      by_cases hclose : p.stillnessFrames ≤ s.stillness + 1
      · rw [if_pos hclose]
        dsimp only
        have hse : (s.swingStart : ℤ) ≤ (pos : ℤ) - (p.stillnessFrames : ℤ) := by
          omega
        by_cases hvalid : p.minSwingDuration ≤ (pos : ℤ) - (p.stillnessFrames : ℤ) -
              (s.swingStart : ℤ) ∧
            (pos : ℤ) - (p.stillnessFrames : ℤ) - (s.swingStart : ℤ) ≤ p.maxSwingDuration
        · rw [if_pos hvalid]
          refine ⟨?_, ?_, ?_, ?_⟩
          · intro q hq
            rcases List.mem_append.mp hq with hq | hq
            · exact hbasic q hq
            · rcases List.mem_singleton.mp hq with rfl
              exact ⟨by positivity, hse, hvalid.1, hvalid.2, rfl⟩
          · dsimp only
            refine List.pairwise_append.mpr ⟨hpair, List.pairwise_singleton _ _, ?_⟩
            intro a ha b hb
            rcases List.mem_singleton.mp hb with rfl
            exact hsep a ha
          · intro hcontra
            simp at hcontra
          · intro _ q hq
            dsimp only at hq
            rcases List.mem_append.mp hq with hq | hq
            · have := hsep q hq
              omega
            · rcases List.mem_singleton.mp hq with rfl
              dsimp only
              omega
        · rw [if_neg hvalid]
          refine ⟨hbasic, hpair, ?_, ?_⟩
          · intro hcontra
            simp at hcontra
          · intro _ q hq
            have := hsep q hq
            omega
      · rw [if_neg hclose]
        refine ⟨hbasic, hpair, ?_, ?_⟩
        · intro _
          dsimp only
          exact ⟨by omega, hsep⟩
        · intro hcontra
          dsimp only at hcontra
          exact absurd hcontra hs
    · rw [if_neg hstill]
      refine ⟨hbasic, hpair, ?_, ?_⟩
      · intro _
        dsimp only
        exact ⟨by omega, hsep⟩
      · intro hcontra
        dsimp only at hcontra
        exact absurd hcontra hs

lemma swInv_scanFrom (p : SwingParams) :
    ∀ (es : List ℚ) (s : SwState) (pos : ℕ), SwInv p pos s →
      SwInv p (pos + es.length) (scanFrom p s pos es) := by
  intro es
  induction es with
  | nil => intro s pos h; simpa [scanFrom] using h
  | cons e es ih =>
    intro s pos h
    have h1 := swInv_step p h e
    have h2 := ih (swingStep p s pos e) (pos + 1) h1
    simpa [scanFrom, Nat.add_comm, Nat.add_assoc, Nat.add_left_comm] using h2

lemma swInv_scan (p : SwingParams) (es : List ℚ) :
    SwInv p es.length (swingScan p es) := by
  have := swInv_scanFrom p es initSwState 0 (swInv_init p)
  simpa [swingScan] using this

/-! ### Claim theorems about the segmenter -/

/-- C5: every segment (start, end, label) emitted by detect_swing_phases
satisfies min_swing_duration ≤ end − start ≤ max_swing_duration; a detected
swing whose duration falls outside this window is discarded. -/
theorem C5_segment_duration_window (p : SwingParams) (es : List ℚ)
    (q : SwingSeg) (hq : q ∈ detect_swing_phases p es) :
    p.minSwingDuration ≤ q.2.1 - q.1 ∧ q.2.1 - q.1 ≤ p.maxSwingDuration := by
  have h := (swInv_scan p es).1 q hq
  exact ⟨h.2.2.1, h.2.2.2.1⟩

/-- Witness for C5: with threshold 5, stillness 2, duration window [1,100],
the energy sequence [6,6,6,0,0] emits exactly the segment (0,2), whose
duration 2 lies in the window. -/
theorem C5_segment_duration_window_witness :
    ((0 : ℤ), (2 : ℤ), "full_swing") ∈ detect_swing_phases ⟨5, 2, 1, 100⟩ [6, 6, 6, 0, 0] ∧
      (1 : ℤ) ≤ 2 - 0 ∧ (2 : ℤ) - 0 ≤ 100 :=
  ⟨by decide, C5_segment_duration_window ⟨5, 2, 1, 100⟩ [6, 6, 6, 0, 0]
    ((0 : ℤ), (2 : ℤ), "full_swing") (by decide)⟩

/-- C6: if the scan is still IN_SWING when the energy sequence ends, no
segment is emitted for that final swing: every emitted segment ends at
least stillness_frames + 1 frames before the start of the final swing (so in
particular it starts and ends strictly before it). -/
theorem C6_unfinished_swing_dropped (p : SwingParams) (es : List ℚ)
    (h : (swingScan p es).inSwing = true) :
    ∀ q ∈ detect_swing_phases p es,
      q.2.1 + (p.stillnessFrames : ℤ) + 1 ≤ ((swingScan p es).swingStart : ℤ) ∧
        q.1 < ((swingScan p es).swingStart : ℤ) ∧
        q.2.1 < ((swingScan p es).swingStart : ℤ) := by
  intro q hq
  have hinv := swInv_scan p es
  have hsep := (hinv.2.2.1 h).2 q hq
  have hb := hinv.1 q hq
  refine ⟨hsep, ?_, ?_⟩ <;> [skip; skip] <;>
    · have h1 := hb.2.1
      omega

/-- Witness for C6: on [6,6,6,0,0,6,6] (threshold 5, stillness 2, window
[1,100]) the scan ends IN_SWING with swing_start = 5; the single emitted
segment (0,2) ends 2 + 2 + 1 = 5 frames-starts before it. -/
theorem C6_unfinished_swing_dropped_witness :
    (swingScan ⟨5, 2, 1, 100⟩ [6, 6, 6, 0, 0, 6, 6]).inSwing = true ∧
      ((0 : ℤ), (2 : ℤ), "full_swing") ∈ detect_swing_phases ⟨5, 2, 1, 100⟩ [6, 6, 6, 0, 0, 6, 6] ∧
      ((2 : ℤ) + 2 + 1 ≤ 5 ∧ (0 : ℤ) < 5 ∧ (2 : ℤ) < 5) := by
  refine ⟨by decide, by decide, ?_⟩
  have h := C6_unfinished_swing_dropped ⟨5, 2, 1, 100⟩ [6, 6, 6, 0, 0, 6, 6] (by decide)
    ((0 : ℤ), (2 : ℤ), "full_swing") (by decide)
  have hstart : (swingScan ⟨5, 2, 1, 100⟩ [6, 6, 6, 0, 0, 6, 6]).swingStart = 5 := by decide
  rw [hstart] at h
  exact h

/-- C9: the segments returned by detect_swing_phases are pairwise disjoint
and strictly increasing: any later segment starts at least
stillness_frames + 1 frames after any earlier segment ends, and every
segment has start ≤ end, so no frame belongs to two segments. -/
theorem C9_segments_disjoint_increasing (p : SwingParams) (es : List ℚ) :
    List.Pairwise (fun a b : SwingSeg => a.2.1 + (p.stillnessFrames : ℤ) + 1 ≤ b.1)
        (detect_swing_phases p es) ∧
      ∀ q ∈ detect_swing_phases p es, q.1 ≤ q.2.1 := by
  have hinv := swInv_scan p es
  refine ⟨hinv.2.1, fun q hq => (hinv.1 q hq).2.1⟩

/-- Witness for C9: a sequence producing two segments (0,1) and (4,5) with
stillness 1; the second starts 1 + 1 + 1 = 3 frames after the first ends. -/
theorem C9_segments_disjoint_increasing_witness :
    List.Pairwise (fun a b : SwingSeg => a.2.1 + ((1 : ℕ) : ℤ) + 1 ≤ b.1)
        (detect_swing_phases ⟨5, 1, 0, 100⟩ [6, 6, 0, 0, 6, 6, 0, 0]) ∧
      ∀ q ∈ detect_swing_phases ⟨5, 1, 0, 100⟩ [6, 6, 0, 0, 6, 6, 0, 0], q.1 ≤ q.2.1 :=
  C9_segments_disjoint_increasing ⟨5, 1, 0, 100⟩ [6, 6, 0, 0, 6, 6, 0, 0]

/-- C10: a frame whose energy exactly equals motion_threshold is treated as
neither motion-start nor stillness: while IDLE the step leaves the state
unchanged (start requires strictly greater), and while IN_SWING it only
resets the stillness counter to 0 (stillness requires strictly less). -/
theorem C10_threshold_equality_neutral (p : SwingParams) (s : SwState) (i : ℕ) :
    swingStep p s i p.motionThreshold =
      if s.inSwing then { s with stillness := 0 } else s := by
  unfold swingStep
  cases hs : s.inSwing with
  | false => simp [lt_irrefl]
  | true => simp [lt_irrefl]

/-! ## Key-position identifier, from swing_detector.py identify_swing_positions -/

/-- The four key positions (Python returns a dict with exactly these keys,
or an empty dict, modelled by Option). Indices are absolute. -/
structure KeyPositions where
  address : ℕ
  top : ℕ
  impact : ℕ
  finish : ℕ
  deriving DecidableEq

/-- The Python slice landmarks_sequence[start:end+1]. -/
def sliceSeg (seq : List (Option Frame)) (start endF : ℕ) : List (Option Frame) :=
  (seq.drop start).take (endF + 1 - start)

/-- Wrist height of one frame: the y-coordinate of landmark 16 (right
wrist); a missing frame contributes 0 (the else branch of the loop). The
len(lm) > 16 guard is vacuous for fixed 33-landmark frames. -/
def wristHeight : Option Frame → ℚ
  | some lm => (lm 16).2.1
  | none => 0

/-- First index of the minimum over the tail, carrying the best value,
its index, and the index of the head of the remaining list. -/
def argminAux (best : ℚ) (bestIdx : ℕ) (i : ℕ) : List ℚ → ℕ
  | [] => bestIdx
  | x :: xs => if x < best then argminAux x i (i + 1) xs else argminAux best bestIdx (i + 1) xs

/-- np.argmin: index of the first occurrence of the minimum. -/
def argminIdx : List ℚ → ℕ
  | [] => 0
  | x :: xs => argminAux x 0 1 xs

lemma argminAux_lt (xs : List ℚ) : ∀ (b : ℚ) (bi i : ℕ), bi < i →
    argminAux b bi i xs < i + xs.length := by
  induction xs with
  | nil => intro b bi i h; simpa [argminAux] using h
  | cons x xs ih =>
    intro b bi i h
    unfold argminAux
    by_cases hx : x < b
    · rw [if_pos hx]
      have := ih x i (i + 1) (by omega)
      simpa [Nat.add_comm, Nat.add_assoc, Nat.add_left_comm] using this
    · rw [if_neg hx]
      have := ih b bi (i + 1) (by omega)
      simpa [Nat.add_comm, Nat.add_assoc, Nat.add_left_comm] using this

lemma argminIdx_lt {l : List ℚ} (h : l ≠ []) : argminIdx l < l.length := by
  cases l with
  | nil => exact absurd rfl h
  | cons x xs =>
    have := argminAux_lt xs x 0 1 (by omega)
    simp only [argminIdx, List.length_cons]
    omega

lemma argminAux_replicate (n : ℕ) (b : ℚ) (bi i : ℕ) :
    argminAux b bi i (List.replicate n b) = bi := by
  induction n generalizing i with
  | zero => simp [argminAux]
  | succ m ih => simp [List.replicate, argminAux, ih]

lemma argminIdx_replicate (n : ℕ) (b : ℚ) : argminIdx (List.replicate n b) = 0 := by
  cases n with
  | zero => rfl
  | succ m => rw [List.replicate_succ, argminIdx, argminAux_replicate]

/-- swing_detector.SwingDetector.identify_swing_positions: address is the
first frame, top the argmin of wrist height over the first half, impact
the fixed 80% offset, finish the last frame; an empty slice gives the
empty mapping. -/
def identify_swing_positions (seq : List (Option Frame)) (start endF : ℕ) :
    Option KeyPositions :=
  let sl := sliceSeg seq start endF
  if sl.length = 0 then none
  else
    let wh := sl.map wristHeight
    let backswingEnd := wh.length / 2
    let topIdx := if 0 < backswingEnd then argminIdx (wh.take backswingEnd) else 0
    let impactIdx := 4 * wh.length / 5
    let finishIdx := wh.length - 1
    some ⟨start + 0, start + topIdx, start + impactIdx, start + finishIdx⟩

/-- C3 counterexample: a 3-frame segment whose landmarks are all missing
does not give an empty mapping; identify_swing_positions returns the full
mapping address 0, top 0, impact 2, finish 2 (wrist heights default to 0). -/
theorem C3_counterexample_all_missing_not_empty :
    identify_swing_positions [none, none, none] 0 2 = some ⟨0, 0, 2, 2⟩ := by decide

/-- C3 amended: identify_swing_positions returns the empty mapping exactly
when the segment slice is empty; on an all-missing but nonempty slice every
wrist height defaults to 0, and the full mapping
(address start, top start, impact start + ⌊0.8 L⌋, finish start + L − 1)
is returned. -/
theorem C3_amended_empty_iff_empty_slice (seq : List (Option Frame)) (start endF : ℕ)
    (hmiss : ∀ f ∈ sliceSeg seq start endF, f = none) :
    (identify_swing_positions seq start endF = none ↔ sliceSeg seq start endF = []) ∧
      (sliceSeg seq start endF ≠ [] →
        identify_swing_positions seq start endF =
          some ⟨start, start, start + 4 * (sliceSeg seq start endF).length / 5,
            start + ((sliceSeg seq start endF).length - 1)⟩) := by
  set sl := sliceSeg seq start endF with hsl
  have hwh : sl.map wristHeight = List.replicate sl.length 0 := by
    rw [List.eq_replicate_iff]
    refine ⟨by simp, ?_⟩
    intro b hb
    rcases List.mem_map.mp hb with ⟨f, hf, rfl⟩
    rw [hmiss f hf]
    rfl
  by_cases hempty : sl = []
  · constructor
    · rw [identify_swing_positions, ← hsl, hempty]
      simp
    · intro h
      exact absurd hempty h
  · have hlen : sl.length ≠ 0 := fun h => hempty (List.length_eq_zero.mp h)
    constructor
    · rw [identify_swing_positions, ← hsl, if_neg hlen]
      simp [hempty]
    · intro _
      rw [identify_swing_positions, ← hsl, if_neg hlen]
      dsimp only
      rw [hwh]
      simp [List.take_replicate, argminIdx_replicate]

/-- Witness for C3: on the all-missing two-frame sequence the slice is
nonempty, so the full mapping address 0, top 0, impact 1, finish 1 comes
back. -/
theorem C3_amended_empty_iff_empty_slice_witness :
    identify_swing_positions [none, none] 0 1 = some ⟨0, 0, 1, 1⟩ :=
  (C3_amended_empty_iff_empty_slice [none, none] 0 1 (by decide)).2 (by decide)

/-- C4 counterexample: for the 2-frame segment (0,1) the slice length is
L = 2 but the finish position is 1 = L − 1, not L as the claim text
"impact = floor(0.8·L) < L = finish" asserts. -/
theorem C4_counterexample_finish_is_len_minus_one :
    (identify_swing_positions [none, none] 0 1).map KeyPositions.finish = some 1 ∧
      (sliceSeg [none, none] 0 1).length = 2 ∧
      (identify_swing_positions [none, none] 0 1).map KeyPositions.finish ≠
        some ((sliceSeg [none, none] 0 1).length) := by decide

/-- C4 amended: for a segment whose slice has length L ≥ 2 the returned key
positions satisfy address ≤ top ≤ impact ≤ finish, with address = start,
impact = start + ⌊0.8·L⌋, finish = start + (L − 1) (the last frame, not
start + L), and top − start ∈ [0, L/2). -/
theorem C4_amended_key_position_order (seq : List (Option Frame)) (start endF : ℕ)
    (kp : KeyPositions) (hL : 2 ≤ (sliceSeg seq start endF).length)
    (hkp : identify_swing_positions seq start endF = some kp) :
    kp.address = start ∧
      kp.impact = start + 4 * (sliceSeg seq start endF).length / 5 ∧
      kp.finish = start + ((sliceSeg seq start endF).length - 1) ∧
      kp.address ≤ kp.top ∧ kp.top ≤ kp.impact ∧ kp.impact ≤ kp.finish ∧
      2 * (kp.top - start) < (sliceSeg seq start endF).length := by
  set sl := sliceSeg seq start endF with hsl
  set L := sl.length with hLdef
  have hlen : L ≠ 0 := by omega
  rw [identify_swing_positions, ← hsl, if_neg (by rw [← hLdef]; exact hlen)] at hkp
  dsimp only at hkp
  have hwlen : (sl.map wristHeight).length = L := by simp [hLdef]
  rw [hwlen] at hkp
  have hpos : 0 < L / 2 := by omega
  rw [if_pos hpos] at hkp
  set ti := argminIdx ((sl.map wristHeight).take (L / 2)) with hti
  have htake : ((sl.map wristHeight).take (L / 2)).length = L / 2 := by
    simp [hwlen]
    omega
  have htine : (sl.map wristHeight).take (L / 2) ≠ [] := by
    intro hcon
    rw [hcon] at htake
    simp at htake
    omega
  have hbound : ti < L / 2 := by
    have := argminIdx_lt htine
    rw [htake] at this
    exact this
  obtain rfl : kp = ⟨start + 0, start + ti, start + 4 * L / 5, start + (L - 1)⟩ :=
    (Option.some.inj hkp).symm
  refine ⟨rfl, rfl, rfl, ?_, ?_, ?_, ?_⟩ <;> dsimp only <;> omega

/-- Witness for C4: the 3-frame segment (0,2) yields key positions
address 0, top 0, impact 2, finish 2, satisfying the amended ordering
(L = 3, ⌊0.8·3⌋ = 2, finish = L − 1 = 2, 2·(top − start) = 0 < 3). -/
theorem C4_amended_key_position_order_witness :
    (2 ≤ (sliceSeg [none, none, none] 0 2).length ∧
        identify_swing_positions [none, none, none] 0 2 = some ⟨0, 0, 2, 2⟩) ∧
      ((0 : ℕ) = 0 ∧ (2 : ℕ) = 0 + 4 * (sliceSeg [none, none, none] 0 2).length / 5 ∧
        (2 : ℕ) = 0 + ((sliceSeg [none, none, none] 0 2).length - 1) ∧
        (0 : ℕ) ≤ 0 ∧ (0 : ℕ) ≤ 2 ∧ (2 : ℕ) ≤ 2 ∧
        2 * ((0 : ℕ) - 0) < (sliceSeg [none, none, none] 0 2).length) :=
  ⟨⟨by decide, by decide⟩,
    C4_amended_key_position_order [none, none, none] 0 2 ⟨0, 0, 2, 2⟩ (by decide) (by decide)⟩

/-! ## Scoring engine, from swing_scorer.py calculate_swing_score -/

/-- config.SCORING_WEIGHTS. -/
structure ScoringWeights where
  swing_plane_consistency : ℚ
  rotation_quality : ℚ
  downswing_alignment : ℚ
  wrist_hinge : ℚ
  weight_transfer : ℚ
  tempo : ℚ

def SCORING_WEIGHTS : ScoringWeights :=
  ⟨0.25, 0.20, 0.20, 0.15, 0.10, 0.10⟩

/-- Python round-half-to-even on a rational. -/
def roundHalfEven (x : ℚ) : ℤ :=
  let n := ⌊x⌋
  let r := x - (n : ℚ)
  if r < 1 / 2 then n
  else if 1 / 2 < r then n + 1
  else if Even n then n else n + 1

/-- round(x, 2): round to two decimal places, ties to even. -/
def round2 (x : ℚ) : ℚ := (roundHalfEven (x * 100) : ℚ) / 100

/-- The weighted overall score of calculate_swing_score (lines 48-58 of
swing_scorer.py) as a function of the six component scores. -/
def overall_score_calc (plane rot down wrist weight tempo : ℚ) : ℚ :=
  round2 (plane * SCORING_WEIGHTS.swing_plane_consistency +
    rot * SCORING_WEIGHTS.rotation_quality +
    down * SCORING_WEIGHTS.downswing_alignment +
    wrist * SCORING_WEIGHTS.wrist_hinge +
    weight * SCORING_WEIGHTS.weight_transfer +
    tempo * SCORING_WEIGHTS.tempo)

lemma roundHalfEven_nonneg {x : ℚ} (hx : 0 ≤ x) : 0 ≤ roundHalfEven x := by
  unfold roundHalfEven
  dsimp only
  have h0 : (0 : ℤ) ≤ ⌊x⌋ := Int.floor_nonneg.mpr hx
  split_ifs <;> omega

lemma roundHalfEven_le {x : ℚ} {M : ℤ} (hx : x ≤ (M : ℚ)) : roundHalfEven x ≤ M := by
  unfold roundHalfEven
  dsimp only
  have hfl : ⌊x⌋ ≤ M := by
    have := Int.floor_mono hx
    simpa using this
  have hfx : (⌊x⌋ : ℚ) ≤ x := Int.floor_le x
  split_ifs with h1 h2 h3
  · exact hfl
  · have hlt : (⌊x⌋ : ℚ) < (M : ℚ) := by linarith
    have : ⌊x⌋ < M := by exact_mod_cast hlt
    omega
  · exact hfl
  · have hr : x - (⌊x⌋ : ℚ) = 1 / 2 := le_antisymm (not_lt.mp h2) (not_lt.mp h1)
    have hlt : (⌊x⌋ : ℚ) < (M : ℚ) := by linarith
    have : ⌊x⌋ < M := by exact_mod_cast hlt
    omega

/-- C8: for any six component scores each in [0,100], the overall score of
calculate_swing_score (the fixed-weight sum, weights 0.25, 0.20, 0.20,
0.15, 0.10, 0.10 which sum to 1) lies in [0,100]. -/
theorem C8_overall_score_in_range (p r d w wt t : ℚ)
    (hp : 0 ≤ p ∧ p ≤ 100) (hr : 0 ≤ r ∧ r ≤ 100) (hd : 0 ≤ d ∧ d ≤ 100)
    (hw : 0 ≤ w ∧ w ≤ 100) (hwt : 0 ≤ wt ∧ wt ≤ 100) (ht : 0 ≤ t ∧ t ≤ 100) :
    (SCORING_WEIGHTS.swing_plane_consistency + SCORING_WEIGHTS.rotation_quality +
        SCORING_WEIGHTS.downswing_alignment + SCORING_WEIGHTS.wrist_hinge +
        SCORING_WEIGHTS.weight_transfer + SCORING_WEIGHTS.tempo = 1) ∧
      0 ≤ overall_score_calc p r d w wt t ∧ overall_score_calc p r d w wt t ≤ 100 := by
  have hs0 : 0 ≤ p * (0.25 : ℚ) + r * 0.20 + d * 0.20 + w * 0.15 + wt * 0.10 + t * 0.10 := by
    nlinarith [hp.1, hr.1, hd.1, hw.1, hwt.1, ht.1]
  have hs1 : p * (0.25 : ℚ) + r * 0.20 + d * 0.20 + w * 0.15 + wt * 0.10 + t * 0.10 ≤ 100 := by
    nlinarith [hp.2, hr.2, hd.2, hw.2, hwt.2, ht.2]
  refine ⟨by norm_num [SCORING_WEIGHTS], ?_, ?_⟩
  · unfold overall_score_calc round2
    simp only [SCORING_WEIGHTS]
    have h := roundHalfEven_nonneg
      (x := (p * (0.25 : ℚ) + r * 0.20 + d * 0.20 + w * 0.15 + wt * 0.10 + t * 0.10) * 100)
      (by nlinarith)
    have h2 : (0 : ℚ) ≤ ((roundHalfEven ((p * (0.25 : ℚ) + r * 0.20 + d * 0.20 + w * 0.15 +
        wt * 0.10 + t * 0.10) * 100) : ℤ) : ℚ) := by exact_mod_cast h
    exact div_nonneg h2 (by norm_num)
  · unfold overall_score_calc round2
    simp only [SCORING_WEIGHTS]
    have h : roundHalfEven ((p * (0.25 : ℚ) + r * 0.20 + d * 0.20 + w * 0.15 +
        wt * 0.10 + t * 0.10) * 100) ≤ (10000 : ℤ) := by
      apply roundHalfEven_le
      push_cast
      nlinarith
    have h2 : ((roundHalfEven ((p * (0.25 : ℚ) + r * 0.20 + d * 0.20 + w * 0.15 +
        wt * 0.10 + t * 0.10) * 100) : ℤ) : ℚ) ≤ 10000 := by exact_mod_cast h
    rw [div_le_iff₀ (by norm_num : (0 : ℚ) < 100)]
    linarith

/-- Witness for C8: all six component scores equal to 100 give an overall
score in [0,100] (in fact exactly 100·Σwᵢ rounded, which is 100). -/
theorem C8_overall_score_in_range_witness :
    ((0 : ℚ) ≤ 100 ∧ (100 : ℚ) ≤ 100) ∧
      ((SCORING_WEIGHTS.swing_plane_consistency + SCORING_WEIGHTS.rotation_quality +
          SCORING_WEIGHTS.downswing_alignment + SCORING_WEIGHTS.wrist_hinge +
          SCORING_WEIGHTS.weight_transfer + SCORING_WEIGHTS.tempo = 1) ∧
        0 ≤ overall_score_calc 100 100 100 100 100 100 ∧
        overall_score_calc 100 100 100 100 100 100 ≤ 100) :=
  ⟨⟨by norm_num, by norm_num⟩,
    C8_overall_score_in_range 100 100 100 100 100 100 (by norm_num) (by norm_num)
      (by norm_num) (by norm_num) (by norm_num) (by norm_num)⟩

/-! ## Motion-energy estimator, from swing_detector.py calculate_motion_energy -/

/-- config.SWING_DETECTION velocity_smoothing_window. -/
def velocity_smoothing_window : ℕ := 5

/-- Euclidean displacement of one joint between consecutive frames
(np.linalg.norm of the coordinate difference). -/
noncomputable def dist3 (a b : Vec3) : ℝ :=
  Real.sqrt (((a.1 - b.1 : ℚ) : ℝ) ^ 2 + ((a.2.1 - b.2.1 : ℚ) : ℝ) ^ 2 +
    ((a.2.2 - b.2.2 : ℚ) : ℝ) ^ 2)

/-- The key joints of calculate_motion_energy: both shoulders, elbows,
wrists and hips. -/
def keyJoints : List (Fin 33) := [11, 12, 13, 14, 15, 16, 23, 24]

/-- Energy at one frame given its predecessor: mean key-joint displacement
times 100 when both frames are present, else 0. -/
noncomputable def pairEnergy (cur prev : Option Frame) : ℝ :=
  match cur, prev with
  | some a, some b => (keyJoints.map fun j => dist3 (a j) (b j)).sum / 8 * 100
  | _, _ => 0

/-- The unsmoothed motion-energy array: all zeros for fewer than two
frames, otherwise 0 at index 0 and pairEnergy of frames (i, i-1) at i ≥ 1. -/
noncomputable def rawEnergy (seq : List (Option Frame)) : List ℝ :=
  if seq.length < 2 then List.replicate seq.length 0
  else 0 :: List.zipWith pairEnergy seq.tail seq

/-- One output sample of scipy.signal.savgol_filter(y, 5, 2) in its default
interp mode: a least-squares quadratic fit of the first (last) five samples
evaluated at the two leading (trailing) positions, and the standard
quadratic convolution weights (-3, 12, 17, 12, -3)/35 in the interior. -/
noncomputable def sgAt (y : List ℝ) (i : ℕ) : ℝ :=
  let n := y.length
  let g := fun j => y.getD j 0
  if i = 0 then (31 * g 0 + 9 * g 1 - 3 * g 2 - 5 * g 3 + 3 * g 4) / 35
  else if i = 1 then (9 * g 0 + 13 * g 1 + 12 * g 2 + 6 * g 3 - 5 * g 4) / 35
  else if i = n - 2 then
    (-5 * g (n - 5) + 6 * g (n - 4) + 12 * g (n - 3) + 13 * g (n - 2) + 9 * g (n - 1)) / 35
  else if i = n - 1 then
    (3 * g (n - 5) - 5 * g (n - 4) - 3 * g (n - 3) + 9 * g (n - 2) + 31 * g (n - 1)) / 35
  else (-3 * g (i - 2) + 12 * g (i - 1) + 17 * g i + 12 * g (i + 1) - 3 * g (i + 2)) / 35

/-- scipy.signal.savgol_filter(y, 5, 2), sample by sample. -/
noncomputable def savgol5 (y : List ℝ) : List ℝ :=
  List.ofFn (fun i : Fin y.length => sgAt y i.val)

/-- swing_detector.SwingDetector.calculate_motion_energy: raw energies,
smoothed when the sequence is longer than the smoothing window. -/
noncomputable def calculate_motion_energy (seq : List (Option Frame)) : List ℝ :=
  let e := rawEnergy seq
  if velocity_smoothing_window < e.length then savgol5 e else e

lemma pairEnergy_nonneg (cur prev : Option Frame) : 0 ≤ pairEnergy cur prev := by
  cases cur with
  | none => cases prev <;> simp [pairEnergy]
  | some a =>
    cases prev with
    | none => simp [pairEnergy]
    | some b =>
      show 0 ≤ (keyJoints.map fun j => dist3 (a j) (b j)).sum / 8 * 100
      apply mul_nonneg _ (by norm_num)
      apply div_nonneg _ (by norm_num)
      apply List.sum_nonneg
      intro x hx
      rcases List.mem_map.mp hx with ⟨j, _, rfl⟩
      exact Real.sqrt_nonneg _

lemma zipWith_pairEnergy_nonneg :
    ∀ (l1 l2 : List (Option Frame)), ∀ x ∈ List.zipWith pairEnergy l1 l2, 0 ≤ x := by
  intro l1
  induction l1 with
  | nil => intro l2 x hx; simp at hx
  | cons a l1 ih =>
    intro l2 x hx
    cases l2 with
    | nil => simp at hx
    | cons b l2 =>
      rcases List.mem_cons.mp hx with rfl | hx
      · exact pairEnergy_nonneg a b
      · exact ih l2 x hx

lemma rawEnergy_length (seq : List (Option Frame)) :
    (rawEnergy seq).length = seq.length := by
  unfold rawEnergy
  split_ifs with h
  · simp
  · simp only [List.length_cons, List.length_zipWith, List.length_tail]
    omega

lemma rawEnergy_nonneg (seq : List (Option Frame)) : ∀ x ∈ rawEnergy seq, 0 ≤ x := by
  unfold rawEnergy
  split_ifs with h
  · intro x hx
    rw [List.eq_of_mem_replicate hx]
  · intro x hx
    rcases List.mem_cons.mp hx with rfl | hx
    · exact le_refl 0
    · exact zipWith_pairEnergy_nonneg seq.tail seq x hx

/-- C1 amended: calculate_motion_energy always preserves the length; every
element of the pre-smoothing energy array is ≥ 0, and when the sequence
length does not exceed the smoothing window (so no smoothing is applied)
the output is ≥ 0; after smoothing, elements can be negative. -/
theorem C1_amended_length_preserved_presmoothing_nonneg (seq : List (Option Frame)) :
    (calculate_motion_energy seq).length = seq.length ∧
      (∀ x ∈ rawEnergy seq, 0 ≤ x) ∧
      (¬ velocity_smoothing_window < seq.length →
        ∀ x ∈ calculate_motion_energy seq, 0 ≤ x) := by
  refine ⟨?_, rawEnergy_nonneg seq, ?_⟩
  · unfold calculate_motion_energy
    dsimp only
    split_ifs with h
    · rw [savgol5, List.length_ofFn, rawEnergy_length]
    · exact rawEnergy_length seq
  · intro h
    unfold calculate_motion_energy
    dsimp only
    rw [if_neg (by rw [rawEnergy_length]; exact h)]
    exact rawEnergy_nonneg seq

/-- Witness for C1 amended, at the two-frame all-missing sequence. -/
theorem C1_amended_length_preserved_presmoothing_nonneg_witness :
    (calculate_motion_energy [none, none]).length = 2 ∧
      (∀ x ∈ rawEnergy [none, none], 0 ≤ x) ∧
      (∀ x ∈ calculate_motion_energy ([none, none] : List (Option Frame)), 0 ≤ x) := by
  have h := C1_amended_length_preserved_presmoothing_nonneg [none, none]
  exact ⟨h.1, h.2.1, h.2.2 (by decide)⟩

/-- All 33 joints at the origin. -/
def frameA : Frame := fun _ => (0, 0, 0)

/-- All 33 joints displaced one unit along x. -/
def frameB : Frame := fun _ => (1, 0, 0)

/-- Seven frames with a single jump between frames 3 and 4: raw energies
are [0,0,0,0,100,0,0]. -/
def c1cexSeq : List (Option Frame) :=
  [some frameA, some frameA, some frameA, some frameA, some frameB, some frameB, some frameB]

lemma dist3_self (v : Vec3) : dist3 v v = 0 := by
  unfold dist3
  simp

lemma pairEnergy_same (f : Frame) : pairEnergy (some f) (some f) = 0 := by
  show (keyJoints.map fun j => dist3 (f j) (f j)).sum / 8 * 100 = 0
  simp [dist3_self]

lemma pairEnergy_BA : pairEnergy (some frameB) (some frameA) = 100 := by
  show (keyJoints.map fun j => dist3 (frameB j) (frameA j)).sum / 8 * 100 = 100
  have hd : ∀ j : Fin 33, dist3 (frameB j) (frameA j) = 1 := by
    intro j
    unfold dist3 frameA frameB
    norm_num
  simp only [hd]
  simp [keyJoints]
  norm_num

lemma rawEnergy_c1cex : rawEnergy c1cexSeq = [0, 0, 0, 0, 100, 0, 0] := by
  rw [rawEnergy, c1cexSeq]
  rw [if_neg (by norm_num)]
  simp only [List.tail_cons, List.zipWith_cons_cons, List.zipWith_nil_left]
  rw [pairEnergy_same, pairEnergy_same, pairEnergy_BA]

/-- C1 counterexample: the polynomial smoothing filter produces a strictly
negative value (−60/7 at index 2) on the energy sequence [0,0,0,0,100,0,0]
arising from a single large inter-frame displacement, refuting "every
element of the output is ≥ 0". -/
theorem C1_counterexample_negative_after_smoothing :
    (calculate_motion_energy c1cexSeq).getD 2 0 < 0 := by
  unfold calculate_motion_energy
  dsimp only
  rw [if_pos (by rw [rawEnergy_length]; norm_num [c1cexSeq, velocity_smoothing_window])]
  rw [rawEnergy_c1cex]
  have hval : sgAt [(0 : ℝ), 0, 0, 0, 100, 0, 0] 2 = -300 / 35 := by
    unfold sgAt
    norm_num [List.getD_cons_zero, List.getD_cons_succ]
  rw [savgol5]
  have hsel : (List.ofFn (fun i : Fin ([(0 : ℝ), 0, 0, 0, 100, 0, 0]).length =>
      sgAt [(0 : ℝ), 0, 0, 0, 100, 0, 0] i.val)).getD 2 0 =
      sgAt [(0 : ℝ), 0, 0, 0, 100, 0, 0] 2 := by
    rw [List.getD_eq_getElem?_getD, List.getElem?_ofFn]
    simp [List.ofFnNthVal]
  rw [hsel, hval]
  norm_num

/-! ## Biomechanical analyzer, from biomechanical_analyzer.py -/

/-- config.BIOMECHANICS weight_shift_threshold. -/
def weight_shift_threshold : ℚ := 0.15

/-- Result record of calculate_weight_transfer. -/
structure WeightMetrics where
  weight_distribution : List ℚ
  max_weight_shift : ℚ
  weight_transfer_score : ℚ
  deriving DecidableEq

/-- Python max() over a nonempty list (the empty case is unreachable). -/
def maxQ : List ℚ → ℚ
  | [] => 0
  | x :: xs => xs.foldl max x

def minQ : List ℚ → ℚ
  | [] => 0
  | x :: xs => xs.foldl min x

/-- Weight ratio of a single frame: hip-centre x relative to the left
ankle, over the ankle span, clamped to [0,1]; a missing frame or a stance
width under 0.01 gives 0.5. -/
def weightRatioOfFrame : Option Frame → ℚ
  | none => 1 / 2
  | some lm =>
    let hipCenterX := ((lm 23).1 + (lm 24).1) / 2
    let leftFootX := (lm 27).1
    let rightFootX := (lm 28).1
    let footWidth := |rightFootX - leftFootX|
    if footWidth < 1 / 100 then 1 / 2
    else min 1 (max 0 ((hipCenterX - leftFootX) / footWidth))

/-- biomechanical_analyzer.BiomechanicalAnalyzer.calculate_weight_transfer. -/
def calculate_weight_transfer (seq : List (Option Frame)) (kp : KeyPositions) :
    WeightMetrics :=
  let idxs := List.range' kp.address (min (kp.finish + 1) seq.length - kp.address)
  let weightRatios := idxs.map (fun i => weightRatioOfFrame (seq.getD i none))
  if weightRatios = [] then ⟨[], 0, 0⟩
  else
    let maxShift := maxQ weightRatios - minQ weightRatios
    let score :=
      if weight_shift_threshold ≤ maxShift then
        min 100 (maxShift / weight_shift_threshold * 100)
      else maxShift / weight_shift_threshold * 100
    ⟨weightRatios, maxShift, score⟩

/-- Result record of calculate_rotation_metrics. -/
structure RotationMetrics where
  hip_rotation : List ℝ
  shoulder_rotation : List ℝ
  max_hip_rotation : ℝ
  max_shoulder_rotation : ℝ
  rotation_sequence_score : ℝ

/-- Python max() over a nonempty list of reals. -/
noncomputable def maxR : List ℝ → ℝ
  | [] => 0
  | x :: xs => xs.foldl max x

/-- 2D Euclidean norm. -/
noncomputable def norm2 (v : ℝ × ℝ) : ℝ := Real.sqrt (v.1 ^ 2 + v.2 ^ 2)

/-- biomechanical_analyzer._calculate_rotation_angle: normalise both
vectors with an epsilon-guarded norm, take the arccos of the clipped dot
product in degrees, and negate when the 2D cross product is negative. -/
noncomputable def rotationAngle (ref cur : ℝ × ℝ) : ℝ :=
  let rn : ℝ × ℝ := (ref.1 / (norm2 ref + 1 / 1000000), ref.2 / (norm2 ref + 1 / 1000000))
  let cn : ℝ × ℝ := (cur.1 / (norm2 cur + 1 / 1000000), cur.2 / (norm2 cur + 1 / 1000000))
  let d := rn.1 * cn.1 + rn.2 * cn.2
  let dc := max (-1) (min 1 d)
  let angle := Real.arccos dc * (180 / Real.pi)
  let cross := rn.1 * cn.2 - rn.2 * cn.1
  if cross < 0 then -angle else angle

/-- Hip line: right hip minus left hip, first two coordinates. -/
def hipLine (lm : Frame) : ℚ × ℚ := ((lm 24).1 - (lm 23).1, (lm 24).2.1 - (lm 23).2.1)

/-- Shoulder line: right shoulder minus left shoulder. -/
def shoulderLine (lm : Frame) : ℚ × ℚ := ((lm 12).1 - (lm 11).1, (lm 12).2.1 - (lm 11).2.1)

def toRVec (v : ℚ × ℚ) : ℝ × ℝ := ((v.1 : ℝ), (v.2 : ℝ))

/-- biomechanical_analyzer.BiomechanicalAnalyzer.calculate_rotation_metrics:
zero defaults when the address frame is out of range or missing, otherwise
per-frame signed rotations of the hip and shoulder lines against the
address reference (missing frames give 0), maxima of absolute values, and
the rotation-sequence score. -/
noncomputable def calculate_rotation_metrics (seq : List (Option Frame))
    (kp : KeyPositions) : RotationMetrics :=
  if seq.length ≤ kp.address then ⟨[], [], 0, 0, 0⟩
  else
    match seq.getD kp.address none with
    | none => ⟨[], [], 0, 0, 0⟩
    | some addr =>
      let hipRef := toRVec (hipLine addr)
      let shoulderRef := toRVec (shoulderLine addr)
      let idxs := List.range' kp.address (min (kp.finish + 1) seq.length - kp.address)
      let hipRotations := idxs.map (fun i =>
        match seq.getD i none with
        | none => 0
        | some lm => rotationAngle hipRef (toRVec (hipLine lm)))
      let shoulderRotations := idxs.map (fun i =>
        match seq.getD i none with
        | none => 0
        | some lm => rotationAngle shoulderRef (toRVec (shoulderLine lm)))
      if hipRotations = [] ∨ shoulderRotations = [] then ⟨[], [], 0, 0, 0⟩
      else
        let maxHip := maxR (hipRotations.map (fun x => |x|))
        let maxShoulder := maxR (shoulderRotations.map (fun x => |x|))
        let score :=
          if maxHip < maxShoulder then
            max 0 (100 - |maxShoulder / (maxHip + 1) - 2| * 30)
          else 50
        ⟨hipRotations, shoulderRotations, maxHip, maxShoulder, score⟩

/-- biomechanical_analyzer._check_early_extension: hips rising more than 5%
of image height between top and impact; out-of-range or missing frames give
False. -/
def check_early_extension (seq : List (Option Frame)) (kp : KeyPositions) : Bool :=
  if seq.length ≤ kp.top ∨ seq.length ≤ kp.impact then false
  else
    match seq.getD kp.top none, seq.getD kp.impact none with
    | some t, some im =>
      decide (1 / 20 < ((t 23).2.1 + (t 24).2.1) / 2 - ((im 23).2.1 + (im 24).2.1) / 2)
    | _, _ => false

/-- First differences of consecutive elements (np.diff). -/
def diffs (l : List ℚ) : List ℚ := List.zipWith (fun a b => b - a) l l.tail

/-- biomechanical_analyzer._check_over_the_top: mean of the first
differences of the first half of the wrist-minus-shoulder x series over
the downswing exceeds 0.01; at most two valid frames give False, as does
an empty difference list (np.mean of an empty array is nan and nan > 0.01
is False). -/
def check_over_the_top (seq : List (Option Frame)) (kp : KeyPositions) : Bool :=
  if seq.length ≤ kp.top ∨ seq.length ≤ kp.impact then false
  else
    let idxs := List.range' kp.top (min (kp.impact + 1) seq.length - kp.top)
    let wristPathX := idxs.filterMap (fun i =>
      (seq.getD i none).map (fun lm => (lm 16).1 - (lm 12).1))
    if 2 < wristPathX.length then
      let d := diffs (wristPathX.take (wristPathX.length / 2))
      if d = [] then false else decide (1 / 100 < d.sum / (d.length : ℚ))
    else false

/-- biomechanical_analyzer.BiomechanicalAnalyzer.detect_common_errors:
the two frame-based checks, then the three metric-threshold checks, in
the append order of the source. -/
noncomputable def detect_common_errors (seq : List (Option Frame)) (kp : KeyPositions)
    (rm : RotationMetrics) (wm : WeightMetrics) : List String :=
  (if check_early_extension seq kp then ["early_extension"] else []) ++
  (if check_over_the_top seq kp then ["over_the_top"] else []) ++
  (if wm.max_weight_shift < weight_shift_threshold / 2 then ["reverse_pivot"] else []) ++
  (if rm.rotation_sequence_score < 50 then ["flat_shoulder"] else []) ++
  (if wm.weight_transfer_score < 60 then ["sway"] else [])

lemma getD_all_none {seq : List (Option Frame)} (hmiss : ∀ f ∈ seq, f = none) (i : ℕ) :
    seq.getD i none = none := by
  rcases lt_or_ge i seq.length with h | h
  · rw [seq.getD_eq_getElem none h]
    exact hmiss _ (seq.getElem_mem h)
  · exact seq.getD_eq_default none h

lemma check_early_extension_all_missing (seq : List (Option Frame)) (kp : KeyPositions)
    (hmiss : ∀ f ∈ seq, f = none) : check_early_extension seq kp = false := by
  unfold check_early_extension
  split_ifs with h
  · rfl
  · rw [getD_all_none hmiss, getD_all_none hmiss]

lemma check_over_the_top_all_missing (seq : List (Option Frame)) (kp : KeyPositions)
    (hmiss : ∀ f ∈ seq, f = none) : check_over_the_top seq kp = false := by
  unfold check_over_the_top
  by_cases h : seq.length ≤ kp.top ∨ seq.length ≤ kp.impact
  · rw [if_pos h]
  · rw [if_neg h]
    dsimp only
    have hempty : (List.range' kp.top (min (kp.impact + 1) seq.length - kp.top)).filterMap
        (fun i => (seq.getD i none).map (fun lm => (lm 16).1 - (lm 12).1)) = [] := by
      rw [List.filterMap_eq_nil_iff]
      intro i _
      rw [getD_all_none hmiss]
      rfl
    rw [hempty]
    simp

/-- C2 amended: the two frame-based predicates of detect_common_errors
(early_extension and over_the_top) fail closed when the required frames
are missing: on an all-missing sequence neither label appears, whatever
the metric records say.  (The metric-threshold predicates reverse_pivot,
flat_shoulder and sway do not inspect frames and still fire on the default
zero metrics; see the counterexample.) -/
theorem C2_amended_frame_predicates_fail_closed (seq : List (Option Frame))
    (kp : KeyPositions) (rm : RotationMetrics) (wm : WeightMetrics)
    (hmiss : ∀ f ∈ seq, f = none) :
    "early_extension" ∉ detect_common_errors seq kp rm wm ∧
      "over_the_top" ∉ detect_common_errors seq kp rm wm := by
  unfold detect_common_errors
  rw [check_early_extension_all_missing seq kp hmiss,
    check_over_the_top_all_missing seq kp hmiss]
  constructor <;>
    · intro hmem
      simp only [Bool.false_eq_true, if_false, List.nil_append, List.mem_append] at hmem
      rcases hmem with (hmem | hmem) | hmem <;>
        · revert hmem
          split <;> simp

/-- Witness for C2 amended: on the one-frame all-missing sequence, with
arbitrary zero metric records, neither frame-based label is produced. -/
theorem C2_amended_frame_predicates_fail_closed_witness :
    "early_extension" ∉ detect_common_errors [none] ⟨0, 0, 0, 0⟩ ⟨[], [], 0, 0, 0⟩ ⟨[], 0, 0⟩ ∧
      "over_the_top" ∉ detect_common_errors [none] ⟨0, 0, 0, 0⟩ ⟨[], [], 0, 0, 0⟩ ⟨[], 0, 0⟩ :=
  C2_amended_frame_predicates_fail_closed [none] ⟨0, 0, 0, 0⟩ ⟨[], [], 0, 0, 0⟩ ⟨[], 0, 0⟩
    (by simp)

def c2seq : List (Option Frame) := [none, none, none, none, none]

def c2kp : KeyPositions := ⟨0, 0, 4, 4⟩

/-- C2 counterexample: on a 5-frame sequence whose frames are all missing,
with the rotation and weight metrics computed from those frames (default
zero values), detect_common_errors returns reverse_pivot, flat_shoulder
and sway — three of the five predicates do trigger, refuting the claim
that none appears. -/
theorem C2_counterexample_metric_errors_trigger_on_missing :
    detect_common_errors c2seq c2kp (calculate_rotation_metrics c2seq c2kp)
        (calculate_weight_transfer c2seq c2kp) =
      ["reverse_pivot", "flat_shoulder", "sway"] := by
  have hrm : calculate_rotation_metrics c2seq c2kp = ⟨[], [], 0, 0, 0⟩ := by
    unfold calculate_rotation_metrics
    rw [if_neg (by norm_num [c2seq, c2kp])]
    rfl
  have hwm : calculate_weight_transfer c2seq c2kp =
      ⟨[1 / 2, 1 / 2, 1 / 2, 1 / 2, 1 / 2], 0, 0⟩ := by
    unfold calculate_weight_transfer
    dsimp only
    have hidx : List.range' c2kp.address (min (c2kp.finish + 1) c2seq.length - c2kp.address) =
        [0, 1, 2, 3, 4] := rfl
    rw [hidx]
    have hmap : [0, 1, 2, 3, 4].map (fun i => weightRatioOfFrame (c2seq.getD i none)) =
        [1 / 2, 1 / 2, 1 / 2, 1 / 2, 1 / 2] := by
      simp [c2seq, weightRatioOfFrame]
    rw [hmap]
    norm_num [maxQ, minQ, List.foldl, weight_shift_threshold]
  have hee : check_early_extension c2seq c2kp = false := by decide
  have hot : check_over_the_top c2seq c2kp = false := by decide
  rw [hrm, hwm]
  unfold detect_common_errors
  rw [hee, hot]
  norm_num [weight_shift_threshold]

/-! ### Rotation-angle evaluation for C7 -/

lemma arccos_antitone {x y : ℝ} (h : x ≤ y) : Real.arccos y ≤ Real.arccos x := by
  rw [Real.arccos_eq_pi_div_two_sub_arcsin, Real.arccos_eq_pi_div_two_sub_arcsin]
  have := Real.monotone_arcsin h
  linarith

lemma norm2_e1 : norm2 ((1 : ℝ), (0 : ℝ)) = 1 := by
  unfold norm2
  norm_num

lemma norm2_e2 : norm2 ((0 : ℝ), (1 : ℝ)) = 1 := by
  unfold norm2
  norm_num

lemma norm2_neg_e2 : norm2 ((0 : ℝ), (-1 : ℝ)) = 1 := by
  unfold norm2
  norm_num

lemma norm2_diag : norm2 (Real.sqrt 2 / 2, Real.sqrt 2 / 2) = 1 := by
  unfold norm2
  have hs2 : Real.sqrt 2 ^ 2 = 2 := Real.sq_sqrt (by norm_num)
  have heq : (Real.sqrt 2 / 2) ^ 2 + (Real.sqrt 2 / 2) ^ 2 = 1 := by nlinarith
  rw [show ((Real.sqrt 2 / 2, Real.sqrt 2 / 2) : ℝ × ℝ).1 = Real.sqrt 2 / 2 from rfl,
    show ((Real.sqrt 2 / 2, Real.sqrt 2 / 2) : ℝ × ℝ).2 = Real.sqrt 2 / 2 from rfl, heq]
  exact Real.sqrt_one

/-- On unit vectors the epsilon-guarded normalisation of
_calculate_rotation_angle is a uniform scaling by (10^6/(10^6+1))^2. -/
lemma rotationAngle_unit (ref cur : ℝ × ℝ) (h1 : norm2 ref = 1) (h2 : norm2 cur = 1) :
    rotationAngle ref cur =
      if ref.1 * cur.2 - ref.2 * cur.1 < 0 then
        -(Real.arccos (max (-1) (min 1
            ((ref.1 * cur.1 + ref.2 * cur.2) * (1000000 / 1000001) ^ 2))) * (180 / Real.pi))
      else
        Real.arccos (max (-1) (min 1
            ((ref.1 * cur.1 + ref.2 * cur.2) * (1000000 / 1000001) ^ 2))) * (180 / Real.pi) := by
  unfold rotationAngle
  rw [h1, h2]
  dsimp only
  have hk : ∀ a b : ℝ, a / (1 + 1 / 1000000) * (b / (1 + 1 / 1000000)) =
      a * b * ((1000000 : ℝ) / 1000001) ^ 2 := by
    intro a b
    field_simp
    ring
  simp only [hk]
  have hsum : ∀ a b : ℝ, a * ((1000000 : ℝ) / 1000001) ^ 2 + b * ((1000000 : ℝ) / 1000001) ^ 2 =
      (a + b) * ((1000000 : ℝ) / 1000001) ^ 2 := by
    intro a b
    ring
  have hdiff : ∀ a b : ℝ, a * ((1000000 : ℝ) / 1000001) ^ 2 - b * ((1000000 : ℝ) / 1000001) ^ 2 =
      (a - b) * ((1000000 : ℝ) / 1000001) ^ 2 := by
    intro a b
    ring
  simp only [hsum, hdiff]
  have hsign : ∀ a : ℝ, (a * ((1000000 : ℝ) / 1000001) ^ 2 < 0) = (a < 0) := by
    intro a
    apply propext
    constructor
    · intro h
      by_contra hc
      push_neg at hc
      nlinarith
    · intro h
      exact mul_neg_of_neg_of_pos h (by norm_num)
  simp only [hsign]

lemma rotationAngle_ccw90 : rotationAngle (1, 0) (0, 1) = 90 := by
  have hpi := Real.pi_ne_zero
  rw [rotationAngle_unit (1, 0) (0, 1) norm2_e1 norm2_e2]
  norm_num [Real.arccos_zero]
  field_simp
  ring

lemma rotationAngle_cw90 : rotationAngle (1, 0) (0, -1) = -90 := by
  have hpi := Real.pi_ne_zero
  rw [rotationAngle_unit (1, 0) (0, -1) norm2_e1 norm2_neg_e2]
  norm_num [Real.arccos_zero]
  field_simp
  ring

lemma arccos_bound_45 {k : ℝ} (hk0 : 0 < k) (hk1 : k ≤ 1) (hkc : 1 - k ≤ 3 / 1000000) :
    Real.pi / 4 ≤ Real.arccos (Real.sqrt 2 / 2 * k) ∧
      Real.arccos (Real.sqrt 2 / 2 * k) ≤ Real.pi / 4 + Real.pi / 1800 := by
  have hpi0 := Real.pi_pos
  have hpilo := Real.pi_gt_d6
  have hpihi := Real.pi_lt_d6
  have hs2 : Real.sqrt 2 ^ 2 = 2 := Real.sq_sqrt (by norm_num)
  have hs0 : 0 < Real.sqrt 2 := Real.sqrt_pos.mpr (by norm_num)
  have hslt : Real.sqrt 2 < 3 / 2 := by nlinarith
  constructor
  · have h1 : Real.arccos (Real.sqrt 2 / 2) = Real.pi / 4 := by
      rw [show Real.sqrt 2 / 2 = Real.cos (Real.pi / 4) from Real.cos_pi_div_four.symm]
      exact Real.arccos_cos (by positivity) (by linarith)
    calc Real.pi / 4 = Real.arccos (Real.sqrt 2 / 2) := h1.symm
      _ ≤ Real.arccos (Real.sqrt 2 / 2 * k) := arccos_antitone (by nlinarith)
  · set x : ℝ := Real.pi / 1800 with hxdef
    have hx0 : 0 < x := by rw [hxdef]; positivity
    have hx1 : x ≤ 1 := by rw [hxdef]; nlinarith
    have hxlo : (1745 : ℝ) / 1000000 < x := by rw [hxdef]; nlinarith
    have hxhi : x < (2 : ℝ) / 1000 := by rw [hxdef]; nlinarith
    have hsin := Real.sin_gt_sub_cube hx0 hx1
    have hx2 : x ^ 2 < 1 / 250000 := by nlinarith
    have hx3 : x ^ 3 < x / 250000 := by nlinarith [mul_lt_mul_of_pos_right hx2 hx0]
    have hs3 : (3 : ℝ) / 1000000 < Real.sin x := by nlinarith
    have hcosle : Real.cos (Real.pi / 4 + x) ≤ Real.sqrt 2 / 2 * k := by
      rw [Real.cos_add, Real.cos_pi_div_four, Real.sin_pi_div_four]
      have hcx : Real.cos x ≤ 1 := Real.cos_le_one x
      have hcs : Real.cos x - Real.sin x ≤ k := by linarith
      nlinarith [mul_le_mul_of_nonneg_left hcs
        (show (0 : ℝ) ≤ Real.sqrt 2 / 2 by positivity)]
    have harc := arccos_antitone hcosle
    have heq : Real.arccos (Real.cos (Real.pi / 4 + x)) = Real.pi / 4 + x :=
      Real.arccos_cos (by positivity) (by nlinarith)
    linarith [harc, heq.le]

lemma rotationAngle_ccw45 :
    |rotationAngle (1, 0) (Real.sqrt 2 / 2, Real.sqrt 2 / 2) - 45| ≤ 1 / 10 := by
  have hpi0 := Real.pi_pos
  have hpine := Real.pi_ne_zero
  have hs2 : Real.sqrt 2 ^ 2 = 2 := Real.sq_sqrt (by norm_num)
  have hs0 : 0 < Real.sqrt 2 := Real.sqrt_pos.mpr (by norm_num)
  have hslt : Real.sqrt 2 < 3 / 2 := by nlinarith
  rw [rotationAngle_unit (1, 0) (Real.sqrt 2 / 2, Real.sqrt 2 / 2) norm2_e1 norm2_diag]
  dsimp only
  rw [if_neg (by push_neg; nlinarith)]
  have hd : ((1 : ℝ) * (Real.sqrt 2 / 2) + 0 * (Real.sqrt 2 / 2)) *
      ((1000000 : ℝ) / 1000001) ^ 2 = Real.sqrt 2 / 2 * ((1000000 : ℝ) / 1000001) ^ 2 := by
    ring
  rw [hd]
  generalize hkdef : ((1000000 : ℝ) / 1000001) ^ 2 = k
  have hk0 : 0 < k := by rw [← hkdef]; norm_num
  have hk1 : k ≤ 1 := by rw [← hkdef]; norm_num
  have hkc : (1 : ℝ) - k ≤ 3 / 1000000 := by rw [← hkdef]; norm_num
  obtain ⟨hlow, hup⟩ := arccos_bound_45 hk0 hk1 hkc
  have hd1 : Real.sqrt 2 / 2 * k < 1 := by nlinarith
  have hd0 : 0 < Real.sqrt 2 / 2 * k := by positivity
  have hclip : max (-1) (min 1 (Real.sqrt 2 / 2 * k)) = Real.sqrt 2 / 2 * k := by
    rw [min_eq_right hd1.le, max_eq_right (by linarith)]
  rw [hclip]
  have hscale : 0 < 180 / Real.pi := by positivity
  have hconv1 : Real.pi / 4 * (180 / Real.pi) = 45 := by
    field_simp
    ring
  have hconv2 : (Real.pi / 4 + Real.pi / 1800) * (180 / Real.pi) = 45 + 1 / 10 := by
    field_simp
    ring
  have h45 : (45 : ℝ) ≤ Real.arccos (Real.sqrt 2 / 2 * k) * (180 / Real.pi) := by
    calc (45 : ℝ) = Real.pi / 4 * (180 / Real.pi) := hconv1.symm
      _ ≤ Real.arccos (Real.sqrt 2 / 2 * k) * (180 / Real.pi) :=
        mul_le_mul_of_nonneg_right hlow hscale.le
  have h451 : Real.arccos (Real.sqrt 2 / 2 * k) * (180 / Real.pi) ≤ 45 + 1 / 10 := by
    calc Real.arccos (Real.sqrt 2 / 2 * k) * (180 / Real.pi)
        ≤ (Real.pi / 4 + Real.pi / 1800) * (180 / Real.pi) :=
          mul_le_mul_of_nonneg_right hup hscale.le
      _ = 45 + 1 / 10 := hconv2
  rw [abs_le]
  constructor <;> linarith

/-- C7: _calculate_rotation_angle is positive for counter-clockwise and
negative for clockwise rotations of the reference vector (1,0): a vector
rotated exactly 45 degrees counter-clockwise yields +45.0 within 0.1
degrees, a 90-degree counter-clockwise rotation yields +90 and a clockwise
rotation yields -90, within 0.5 degrees. -/
theorem C7_rotation_angle_sign_and_value :
    |rotationAngle (1, 0) (Real.sqrt 2 / 2, Real.sqrt 2 / 2) - 45| ≤ 1 / 10 ∧
      |rotationAngle (1, 0) (0, 1) - 90| ≤ 1 / 2 ∧
      |rotationAngle (1, 0) (0, -1) - (-90)| ≤ 1 / 2 := by
  refine ⟨rotationAngle_ccw45, ?_, ?_⟩
  · rw [rotationAngle_ccw90]
    norm_num
  · rw [rotationAngle_cw90]
    norm_num
